import Mathlib

/-!
Verification of the National Ledger core of the OpenNOVAProject repository
(`nova_syntheia/ledger/service.py`, `nova_syntheia/ledger/models.py`,
`nova_syntheia/ledger/audit.py`).

The ledger is an append-only, hash-chained record store.  We embed its data
model and the four operations `initialize`, `append`, `verify_chain` and the
audit CLI entry point `run_audit` as pure Lean functions over an explicit
store state (the rows of the `ledger_entries` table, in insertion order).

Embedding conventions:
* `UUID` values and `datetime` values are represented by the strings the
  source converts them to before hashing (`str(uuid)`, `timestamp.isoformat()`).
* The SHA-256 hex digest `hashlib.sha256(...).hexdigest()` is an abstract
  parameter `H : String → String`; every definition is parametric in it.
  Claims that need collision-freedom take `Function.Injective H` as the
  standard idealization.
* `json.dumps(obj, sort_keys=True, default=str)` is embedded concretely as
  `dumps`: a canonicalization pass that sorts every object's keys (Python's
  `sorted` on `str` keys is a stable sort by Unicode code points, embedded
  with `List.insertionSort`, which computes the same result as any stable
  sort by key) followed by a rendering pass with Python's JSON separators
  `", "` and `": "` and `ensure_ascii` string escaping.
* The SQL queries `ORDER BY sequence_number ASC/DESC` are embedded by
  sorting the store with `sortBySeq`.
-/

namespace NovaLedger

/- ══════════════ Data model and operations (from the source) ══════════════ -/

/-- JSON-like values: the shape of the `content` payload and of the
`hashable` dictionary built by `LedgerService._compute_hash`.  Python dicts
are insertion-ordered key/value lists. -/
inductive Json where
  | null : Json
  | bool (b : Bool) : Json
  | num (n : Int) : Json
  | str (s : String) : Json
  | arr (xs : List Json) : Json
  | obj (kvs : List (String × Json)) : Json

/-- Hex digit used by the `\uXXXX` escapes of `json.dumps` (lowercase). -/
def hexDigitChar (n : Nat) : Char :=
  if n < 10 then Char.ofNat (48 + n) else Char.ofNat (87 + n)

/-- Four lowercase hex digits. -/
def hex4 (n : Nat) : String :=
  String.mk [hexDigitChar (n / 4096 % 16), hexDigitChar (n / 256 % 16),
    hexDigitChar (n / 16 % 16), hexDigitChar (n % 16)]

/-- A single `\uXXXX` escape. -/
def uEscape (n : Nat) : String := "\\u" ++ hex4 n

/-- Escaping of one character by Python's `json.dumps` with the default
`ensure_ascii=True`: printable ASCII is kept, `"` and `\` and the usual
control characters get short escapes, everything else becomes `\uXXXX`
(with surrogate pairs above `0xFFFF`). -/
def escapeChar (c : Char) : String :=
  if c = '"' then "\\\""
  else if c = '\\' then "\\\\"
  else if c = '\n' then "\\n"
  else if c = '\t' then "\\t"
  else if c = '\r' then "\\r"
  else if c = Char.ofNat 8 then "\\b"
  else if c = Char.ofNat 12 then "\\f"
  else if c.toNat < 32 ∨ c.toNat > 126 then
    if c.toNat < 65536 then uEscape c.toNat
    else uEscape (55296 + (c.toNat - 65536) / 1024) ++
      uEscape (56320 + (c.toNat - 65536) % 1024)
  else String.singleton c

/-- JSON string literal as produced by `json.dumps`. -/
def dumpString (s : String) : String :=
  "\"" ++ String.join (s.data.map escapeChar) ++ "\""

/-- Order on key/value pairs used by `sort_keys=True`: compare keys only. -/
def keyLe (p q : String × Json) : Prop := p.1 ≤ q.1

instance : DecidableRel keyLe := fun p q => inferInstanceAs (Decidable (p.1 ≤ q.1))

instance : IsTotal (String × Json) keyLe := ⟨fun p q => le_total p.1 q.1⟩

instance : IsTrans (String × Json) keyLe := ⟨fun _ _ _ h₁ h₂ => le_trans h₁ h₂⟩

/-- Stable sort of a dict's pairs by key, as Python's `sorted(d.items())`
(equivalently: the iteration order of `json.dumps(..., sort_keys=True)`). -/
def sortKeys (kvs : List (String × Json)) : List (String × Json) :=
  kvs.insertionSort keyLe

mutual

/-- Canonicalization pass of `json.dumps(..., sort_keys=True)`: recursively
sort the keys of every object. -/
def canon : Json → Json
  | .null => .null
  | .bool b => .bool b
  | .num n => .num n
  | .str s => .str s
  | .arr xs => .arr (canonList xs)
  | .obj kvs => .obj (sortKeys (canonPairs kvs))

/-- `canon` mapped over an array's elements. -/
def canonList : List Json → List Json
  | [] => []
  | x :: xs => canon x :: canonList xs

/-- `canon` mapped over an object's values (keys untouched). -/
def canonPairs : List (String × Json) → List (String × Json)
  | [] => []
  | (k, v) :: ps => (k, canon v) :: canonPairs ps

end

mutual

/-- Rendering pass of `json.dumps` with the default separators
`(", ", ": ")`; object keys are emitted in the order of the (already
canonicalized) pair list. -/
def render : Json → String
  | .null => "null"
  | .bool true => "true"
  | .bool false => "false"
  | .num n => toString n
  | .str s => dumpString s
  | .arr xs => "[" ++ renderArr xs ++ "]"
  | .obj kvs => "\x7b" ++ renderObj kvs ++ "\x7d"

/-- Comma-separated rendering of array elements. -/
def renderArr : List Json → String
  | [] => ""
  | [x] => render x
  | x :: y :: xs => render x ++ ", " ++ renderArr (y :: xs)

/-- Comma-separated rendering of `key: value` pairs. -/
def renderObj : List (String × Json) → String
  | [] => ""
  | [(k, v)] => dumpString k ++ ": " ++ render v
  | (k, v) :: q :: kvs => dumpString k ++ ": " ++ render v ++ ", " ++ renderObj (q :: kvs)

end

/-- `json.dumps(j, sort_keys=True)`: canonicalize, then render.  (Sorting
each object's keys during serialization is the same as sorting them all
first and then serializing; the factoring makes the recursion structural.) -/
def dumps (j : Json) : String := render (canon j)

/-- One row of the `ledger_entries` table
(`nova_syntheia/ledger/models.py`, class `LedgerEntryDB`). -/
structure LedgerEntry where
  id : String
  sequence_number : Int
  previous_hash : String
  entry_hash : String
  timestamp : String
  entry_type : String
  author_role : String
  author_member_id : String
  content : List (String × Json)
  supersedes : Option String
  emergency_designation : Bool

/-- The rows of the append-only `ledger_entries` table, in insertion order. -/
abbrev Store := List LedgerEntry

/-- `GENESIS_HASH = "0" * 64` (`service.py` line 40). -/
def GENESIS_HASH : String := String.mk (List.replicate 64 '0')

/-- The `hashable` dictionary built by `LedgerService._compute_hash`
(`service.py` lines 417-428), in the source's insertion order. -/
def hashable (entry_id : String) (sequence_number : Int) (previous_hash : String)
    (timestamp : String) (entry_type : String) (author_role : String)
    (author_member_id : String) (content : List (String × Json))
    (supersedes : Option String) (emergency_designation : Bool) : Json :=
  Json.obj
    [("id", .str entry_id),
     ("sequence_number", .num sequence_number),
     ("previous_hash", .str previous_hash),
     ("timestamp", .str timestamp),
     ("entry_type", .str entry_type),
     ("author_role", .str author_role),
     ("author_member_id", .str author_member_id),
     ("content", .obj content),
     ("supersedes", match supersedes with | some u => .str u | none => .null),
     ("emergency_designation", .bool emergency_designation)]

/-- `LedgerService._compute_hash` (`service.py` lines 396-432):
`sha256((previous_hash + canonical_json).encode()).hexdigest()`, with the
SHA-256 hex digest abstracted as `H`. -/
def compute_hash (H : String → String) (entry_id : String) (sequence_number : Int)
    (previous_hash : String) (timestamp : String) (entry_type : String)
    (author_role : String) (author_member_id : String)
    (content : List (String × Json)) (supersedes : Option String)
    (emergency_designation : Bool) : String :=
  H (previous_hash ++ dumps (hashable entry_id sequence_number previous_hash
      timestamp entry_type author_role author_member_id content supersedes
      emergency_designation))

/-- The string handed to the digest when an entry's hash is recomputed from
its own stored fields (as in `verify_chain`, `service.py` lines 267-278). -/
def hashInput (e : LedgerEntry) : String :=
  e.previous_hash ++ dumps (hashable e.id e.sequence_number e.previous_hash
    e.timestamp e.entry_type e.author_role e.author_member_id e.content
    e.supersedes e.emergency_designation)

/-- `_compute_hash` applied to an entry's own stored fields. -/
def computeEntryHash (H : String → String) (e : LedgerEntry) : String :=
  compute_hash H e.id e.sequence_number e.previous_hash e.timestamp
    e.entry_type e.author_role e.author_member_id e.content e.supersedes
    e.emergency_designation

/-- Order used by `ORDER BY sequence_number`. -/
def seqLe (a b : LedgerEntry) : Prop := a.sequence_number ≤ b.sequence_number

instance : DecidableRel seqLe :=
  fun a b => inferInstanceAs (Decidable (a.sequence_number ≤ b.sequence_number))

instance : IsTotal LedgerEntry seqLe := ⟨fun a b => le_total a.sequence_number b.sequence_number⟩

instance : IsTrans LedgerEntry seqLe := ⟨fun _ _ _ h₁ h₂ => le_trans h₁ h₂⟩

/-- The store read back in ascending `sequence_number` order
(`SELECT ... ORDER BY sequence_number ASC`). -/
def sortBySeq (s : Store) : Store := s.insertionSort seqLe

/-- `ORDER BY sequence_number DESC LIMIT 1`: the tip of the chain
(`service.py` lines 183-187). -/
def lastEntry (s : Store) : Option LedgerEntry := (sortBySeq s).getLast?

/-- The fixed genesis content payload (`service.py` lines 111-124). -/
def genesisContent : List (String × Json) :=
  [("message", .str "Genesis of the National Ledger of Nova Syntheia"),
   ("declaration", .str ("This entry establishes the permanent institutional record " ++
      "of Nova Syntheia — a constitutional polity of human and " ++
      "artificial members. E Pluribus Unum — And Together, More.")),
   ("integrity_standard", .obj
      [("cryptographically_verifiable", .bool true),
       ("append_only", .bool true),
       ("independently_auditable", .bool true)]),
   ("constitutional_authority", .str "Article VIII — The National Ledger")]

/-- `LedgerService._create_genesis_block` (`service.py` lines 106-150).
The fresh `uuid4()` values and the `datetime.now` timestamp are
nondeterministic inputs, passed as parameters. -/
def genesisBlock (H : String → String) (genesis_id system_member_id genesis_timestamp : String) :
    LedgerEntry :=
  { id := genesis_id
    sequence_number := 0
    previous_hash := GENESIS_HASH
    entry_hash := compute_hash H genesis_id 0 GENESIS_HASH genesis_timestamp
      "genesis" "system" system_member_id genesisContent none false
    timestamp := genesis_timestamp
    entry_type := "genesis"
    author_role := "system"
    author_member_id := system_member_id
    content := genesisContent
    supersedes := none
    emergency_designation := false }

/-- `LedgerService.initialize` (`service.py` lines 83-104): seed the genesis
block if and only if no entry with `sequence_number == 0` exists. -/
def initializeLedger (H : String → String)
    (genesis_id system_member_id genesis_timestamp : String) (s : Store) : Store :=
  if s.any (fun e => e.sequence_number == 0) then s
  else s ++ [genesisBlock H genesis_id system_member_id genesis_timestamp]

/-- Error message of `service.py` lines 190-192. -/
def noGenesisMsg : String :=
  "Cannot append: no genesis block found. Call initialize() first."

/-- `LedgerService.append` (`service.py` lines 152-235).  The fresh
`uuid4()` and `datetime.now` timestamp are the parameters `entry_id` and
`timestamp`.  On success the new row is inserted (the table grows by one
row, nothing else changes); with no tip a `LedgerIntegrityError` is raised
before anything is written. -/
def append (H : String → String) (entry_type : String) (author_role : String)
    (author_member_id : String) (content : List (String × Json))
    (supersedes : Option String) (emergency_designation : Bool)
    (entry_id : String) (timestamp : String) (s : Store) :
    Except String (Store × LedgerEntry) :=
  match lastEntry s with
  | none => .error noGenesisMsg
  | some last =>
    let new_seq := last.sequence_number + 1
    let previous_hash := last.entry_hash
    let entry_hash := compute_hash H entry_id new_seq previous_hash timestamp
      entry_type author_role author_member_id content supersedes emergency_designation
    let entry : LedgerEntry :=
      { id := entry_id
        sequence_number := new_seq
        previous_hash := previous_hash
        entry_hash := entry_hash
        timestamp := timestamp
        entry_type := entry_type
        author_role := author_role
        author_member_id := author_member_id
        content := content
        supersedes := supersedes
        emergency_designation := emergency_designation }
    .ok (s ++ [entry], entry)

/-- Failure message of `service.py` lines 283-286. -/
def hashMismatchMsg (e : LedgerEntry) (expected : String) : String :=
  "Hash mismatch at sequence " ++ toString e.sequence_number ++
    ": stored=" ++ e.entry_hash.take 16 ++ "... computed=" ++ expected.take 16 ++ "..."

/-- Failure message of `service.py` lines 292-294. -/
def chainBreakMsg (e : LedgerEntry) : String :=
  "Chain break at sequence " ++ toString e.sequence_number ++
    ": previous_hash does not match prior entry's hash"

/-- Failure message of `service.py` line 259. -/
def firstSeqMsg (n : Int) : String :=
  "First entry has sequence " ++ toString n ++ ", expected 0"

/-- Failure message of `service.py` line 262. -/
def genesisPrevMsg : String := "Genesis block has incorrect previous_hash"

/-- Failure message of `service.py` line 254. -/
def emptyLedgerMsg : String := "No entries found in ledger"

/-- Success message of `service.py` line 298. -/
def successMsg (n : Nat) : String :=
  "Chain verified: " ++ toString n ++ " entries, integrity intact"

/-- The `for i, entry in enumerate(entries)` loop of `verify_chain`
(`service.py` lines 265-294): recompute each entry's hash, then check the
link to the prior entry (the linkage check is skipped at index 0, i.e.
while `prior = none`).  Returns the first failure, if any. -/
def verifyFrom (H : String → String) :
    Option LedgerEntry → Nat → List LedgerEntry → Option (Nat × String)
  | _, _, [] => none
  | prior, i, e :: rest =>
    let expected := computeEntryHash H e
    if e.entry_hash ≠ expected then
      some (i, hashMismatchMsg e expected)
    else
      match prior with
      | some p =>
        if e.previous_hash ≠ p.entry_hash then some (i, chainBreakMsg e)
        else verifyFrom H (some e) (i + 1) rest
      | none => verifyFrom H (some e) (i + 1) rest

/-- `LedgerService.verify_chain` (`service.py` lines 237-299). -/
def verify_chain (H : String → String) (store : Store) : Bool × Nat × String :=
  let entries := sortBySeq store
  match entries with
  | [] => (false, 0, emptyLedgerMsg)
  | first :: _ =>
    if first.sequence_number ≠ 0 then
      (false, 0, firstSeqMsg first.sequence_number)
    else if first.previous_hash ≠ GENESIS_HASH then
      (false, 0, genesisPrevMsg)
    else
      match verifyFrom H none 0 entries with
      | some (i, msg) => (false, i, msg)
      | none => (true, entries.length, successMsg entries.length)

/-- `run_audit` (`audit.py` lines 34-102): count the entries; an empty
ledger is reported as valid (`return True`) without running
`verify_chain`; otherwise the result is `verify_chain`'s `is_valid`. -/
def run_audit (H : String → String) (s : Store) : Bool :=
  let count := s.length
  if count == 0 then true
  else (verify_chain H s).1

/- ══════════════ Logical equality of JSON values up to key order ══════════════ -/

mutual

/-- Two JSON values carry the same logical content, differing only in the
insertion order of map keys, at any nesting depth.  An object is related to
another object when its keys are distinct and some reordering of its
(recursively related) pairs gives the other's pair list. -/
def JsonEquiv : Json → Json → Prop
  | .null, b => b = .null
  | .bool x, b => b = .bool x
  | .num n, b => b = .num n
  | .str s, b => b = .str s
  | .arr xs, b => ∃ ys, b = .arr ys ∧ JsonListEquiv xs ys
  | .obj kvs, b => ∃ kvs₂, b = .obj kvs₂ ∧ (kvs.map Prod.fst).Nodup ∧
      ∃ mid, JsonPairsEquiv kvs mid ∧ mid.Perm kvs₂

/-- Elementwise `JsonEquiv` on arrays. -/
def JsonListEquiv : List Json → List Json → Prop
  | [], ys => ys = []
  | x :: xs, ys => ∃ y ys₂, ys = y :: ys₂ ∧ JsonEquiv x y ∧ JsonListEquiv xs ys₂

/-- Pointwise `JsonEquiv` on pair lists: same keys in the same order,
recursively related values. -/
def JsonPairsEquiv : List (String × Json) → List (String × Json) → Prop
  | [], qs => qs = []
  | (k, v) :: ps, qs => ∃ w qs₂, qs = (k, w) :: qs₂ ∧ JsonEquiv v w ∧ JsonPairsEquiv ps qs₂

end

/-- Strict key order, used to pin down the sorted arrangement. -/
def keyLt (p q : String × Json) : Prop := p.1 < q.1

instance : IsAntisymm (String × Json) keyLt :=
  ⟨fun _ _ h₁ h₂ => absurd (lt_trans h₁ h₂) (lt_irrefl _)⟩

/- ══════════════ Chain invariants and reachable store states ══════════════ -/

/-- The conditions checked by the verification loop hold of every entry of
`l`, walking with `prior` as the preceding entry (`none` at the start):
each stored `entry_hash` matches the recomputation from the entry's own
fields, and each `previous_hash` matches the prior entry's hash. -/
def chainClean (H : String → String) : Option LedgerEntry → List LedgerEntry → Prop
  | _, [] => True
  | prior, e :: rest =>
    e.entry_hash = computeEntryHash H e ∧
    (∀ p, prior = some p → e.previous_hash = p.entry_hash) ∧
    chainClean H (some e) rest

/-- The entry playing the role of `entries[i-1]` after walking a block of
entries: the block's last entry, or the incoming `prior` for an empty block. -/
def lastD : List LedgerEntry → Option LedgerEntry → Option LedgerEntry
  | [], prior => prior
  | e :: t, _ => lastD t (some e)

/-- Store states reachable by `initialize` on an empty store followed by
any sequence of successful `append` calls.  The nondeterministic fresh
identifiers and timestamps are arbitrary strings. -/
inductive Reachable (H : String → String) : Store → Prop where
  | init (genesis_id system_member_id genesis_timestamp : String) :
      Reachable H (initializeLedger H genesis_id system_member_id genesis_timestamp [])
  | step {s s' : Store} {e : LedgerEntry}
      (entry_type author_role author_member_id : String)
      (content : List (String × Json)) (supersedes : Option String)
      (emergency_designation : Bool) (entry_id timestamp : String) :
      Reachable H s →
      append H entry_type author_role author_member_id content supersedes
        emergency_designation entry_id timestamp s = .ok (s', e) →
      Reachable H s'

/-- The invariants maintained by the reachable store states. -/
structure WellFormed (H : String → String) (s : Store) : Prop where
  nonempty : s ≠ []
  seqs : s.map (fun e => e.sequence_number) = (List.range s.length).map Int.ofNat
  genesis_prev : ∀ e, s.head? = some e → e.previous_hash = GENESIS_HASH
  clean : chainClean H none s

/-- A throwaway row used to exercise the fail-fast checks. -/
def dummyEntry (n : Int) (prev : String) : LedgerEntry :=
  { id := "", sequence_number := n, previous_hash := prev, entry_hash := "",
    timestamp := "", entry_type := "", author_role := "", author_member_id := "",
    content := [], supersedes := none, emergency_designation := false }

/-- A concrete two-entry chain: genesis plus one appended entry. -/
def c5Chain : Store :=
  match append (fun x => x) "executive_action" "operations_executive" "member-1"
      [("action", Json.str "alpha")] none false "id-1" "ts-1"
      (initializeLedger (fun x => x) "gid" "mid" "ts0" []) with
  | .ok (s, _) => s
  | .error _ => []

/-- Substring scan over character lists. -/
def hasSubList : List Char → List Char → Bool
  | [], sub => sub.isEmpty
  | c :: t, sub => sub.isPrefixOf (c :: t) || hasSubList t sub

/-- `strHasSub hay sub` holds when `sub` occurs contiguously in `hay`;
used to state that a message names a sequence number. -/
def strHasSub (hay sub : String) : Bool := hasSubList hay.data sub.data

/-- The genesis block of the concrete chains below. -/
def c1Genesis : LedgerEntry := genesisBlock (fun x => x) "gid" "mid" "ts0"

/-- The genesis block with its stored `entry_hash` overwritten. -/
def c1Tampered : LedgerEntry := { c1Genesis with entry_hash := "" }

/-- The genesis block with its stored `previous_hash` overwritten. -/
def c1PrevTampered : LedgerEntry := { c1Genesis with previous_hash := "X" }

/-- A concrete two-entry chain for the tamper counterexample. -/
def c1Chain2 : Store :=
  match append (fun x => x) "executive_action" "operations_executive" "member-1"
      [("action", Json.str "alpha")] none false "id-1" "ts-1"
      (initializeLedger (fun x => x) "gid" "mid" "ts0" []) with
  | .ok (s, _) => s
  | .error _ => []

/-- The entry appended on top of the genesis block in `c1Chain2`. -/
def c1Entry1 : LedgerEntry :=
  { id := "id-1"
    sequence_number := 1
    previous_hash := c1Genesis.entry_hash
    entry_hash := compute_hash (fun x => x) "id-1" 1 c1Genesis.entry_hash "ts-1"
      "executive_action" "operations_executive" "member-1"
      [("action", Json.str "alpha")] none false
    timestamp := "ts-1"
    entry_type := "executive_action"
    author_role := "operations_executive"
    author_member_id := "member-1"
    content := [("action", Json.str "alpha")]
    supersedes := none
    emergency_designation := false }

/-- The appended entry with its stored `sequence_number` overwritten. -/
def c1SeqTampered : LedgerEntry := { c1Entry1 with sequence_number := -1 }

/- ══════════════ Theorems ══════════════ -/

/-- `canonPairs` is a `map` over the pairs. -/
theorem canonPairs_eq_map (ps : List (String × Json)) :
    canonPairs ps = ps.map (fun p => (p.1, canon p.2)) := by
  induction ps with
  | nil => rfl
  | cons p ps ih => obtain ⟨k, v⟩ := p; simp [canonPairs, ih]

/-- `canonPairs` keeps the key list. -/
theorem map_fst_canonPairs (ps : List (String × Json)) :
    (canonPairs ps).map Prod.fst = ps.map Prod.fst := by
  rw [canonPairs_eq_map, List.map_map]; rfl

/-- Pointwise related pair lists have the same key list. -/
theorem keys_eq_of_pairsEquiv :
    ∀ (ps qs : List (String × Json)), JsonPairsEquiv ps qs →
      ps.map Prod.fst = qs.map Prod.fst := by
  intro ps
  induction ps with
  | nil => intro qs h; rw [show qs = [] from by simpa [JsonPairsEquiv] using h]
  | cons p ps ih =>
    obtain ⟨k, v⟩ := p
    intro qs h
    obtain ⟨w, qs₂, rfl, _, hps⟩ := by simpa [JsonPairsEquiv] using h
    simpa using ih qs₂ hps

/-- Sorting by key is insensitive to the input order as long as the keys
are distinct: the sorted arrangement of the pairs is unique. -/
theorem sortKeys_eq_of_perm {l₁ l₂ : List (String × Json)}
    (hnd : (l₁.map Prod.fst).Nodup) (hp : l₁.Perm l₂) :
    sortKeys l₁ = sortKeys l₂ := by
  have hperm : (sortKeys l₁).Perm (sortKeys l₂) :=
    ((List.perm_insertionSort keyLe l₁).trans hp).trans
      (List.perm_insertionSort keyLe l₂).symm
  have hnd₂ : (l₂.map Prod.fst).Nodup := ((hp.map Prod.fst).nodup_iff).mp hnd
  have key_sorted : ∀ (l : List (String × Json)), (l.map Prod.fst).Nodup →
      List.Pairwise keyLt (sortKeys l) := by
    intro l hl
    have hs : List.Pairwise keyLe (sortKeys l) := List.sorted_insertionSort keyLe l
    have hne : List.Pairwise (fun p q : String × Json => p.1 ≠ q.1) (sortKeys l) := by
      have : ((sortKeys l).map Prod.fst).Nodup :=
        (((List.perm_insertionSort keyLe l).map Prod.fst).nodup_iff).mpr hl
      exact List.pairwise_map.mp this
    exact (hs.and hne).imp fun h => lt_of_le_of_ne h.1 h.2
  exact List.eq_of_perm_of_sorted hperm (key_sorted l₁ hnd) (key_sorted l₂ hnd₂)

mutual

/-- `canon` identifies logically equal JSON values: canonicalization maps
key-order-equivalent values to the same canonical form. -/
theorem canon_eq_of_equiv : ∀ (a b : Json), JsonEquiv a b → canon a = canon b
  | .null, b, h => by rw [show b = .null from by simpa [JsonEquiv] using h]
  | .bool x, b, h => by rw [show b = .bool x from by simpa [JsonEquiv] using h]
  | .num n, b, h => by rw [show b = .num n from by simpa [JsonEquiv] using h]
  | .str s, b, h => by rw [show b = .str s from by simpa [JsonEquiv] using h]
  | .arr xs, b, h => by
    obtain ⟨ys, rfl, hxy⟩ := by simpa [JsonEquiv] using h
    simp only [canon]
    rw [canonList_eq_of_equiv xs ys hxy]
  | .obj kvs, b, h => by
    obtain ⟨kvs₂, rfl, hnd, mid, hpq, hperm⟩ := by simpa [JsonEquiv] using h
    simp only [canon]
    have h₁ : canonPairs kvs = canonPairs mid := canonPairs_eq_of_equiv kvs mid hpq
    have h₂ : (canonPairs mid).Perm (canonPairs kvs₂) := by
      rw [canonPairs_eq_map, canonPairs_eq_map]
      exact hperm.map _
    have hndm : ((canonPairs mid).map Prod.fst).Nodup := by
      rw [map_fst_canonPairs, ← keys_eq_of_pairsEquiv kvs mid hpq]
      exact hnd
    rw [h₁, sortKeys_eq_of_perm hndm h₂]

/-- Elementwise version of `canon_eq_of_equiv` for arrays. -/
theorem canonList_eq_of_equiv : ∀ (xs ys : List Json), JsonListEquiv xs ys →
    canonList xs = canonList ys
  | [], ys, h => by rw [show ys = [] from by simpa [JsonListEquiv] using h]
  | x :: xs, ys, h => by
    obtain ⟨y, ys₂, rfl, hxy, hxs⟩ := by simpa [JsonListEquiv] using h
    simp only [canonList]
    rw [canon_eq_of_equiv x y hxy, canonList_eq_of_equiv xs ys₂ hxs]

/-- Pointwise version of `canon_eq_of_equiv` for pair lists. -/
theorem canonPairs_eq_of_equiv : ∀ (ps qs : List (String × Json)), JsonPairsEquiv ps qs →
    canonPairs ps = canonPairs qs
  | [], qs, h => by rw [show qs = [] from by simpa [JsonPairsEquiv] using h]
  | (k, v) :: ps, qs, h => by
    obtain ⟨w, qs₂, rfl, hvw, hps⟩ := by simpa [JsonPairsEquiv] using h
    simp only [canonPairs]
    rw [canon_eq_of_equiv v w hvw, canonPairs_eq_of_equiv ps qs₂ hps]

end

/-- The canonical serialization is insensitive to map key order: logically
equal JSON values serialize identically. -/
theorem dumps_eq_of_equiv {a b : Json} (h : JsonEquiv a b) : dumps a = dumps b := by
  unfold dumps
  rw [canon_eq_of_equiv a b h]

/-- Every entry of a clean chain stores its recomputed hash. -/
theorem chainClean_mem_hash {H : String → String} :
    ∀ (l : List LedgerEntry) (prior : Option LedgerEntry), chainClean H prior l →
      ∀ e ∈ l, e.entry_hash = computeEntryHash H e := by
  intro l
  induction l with
  | nil => intro _ _ e he; cases he
  | cons x t ih =>
    intro prior h e he
    obtain ⟨h1, _, h3⟩ := h
    rcases List.mem_cons.mp he with rfl | ht
    · exact h1
    · exact ih (some x) h3 e ht

/-- Cleanliness is inherited by prefixes. -/
theorem chainClean_take {H : String → String} :
    ∀ (l : List LedgerEntry) (prior : Option LedgerEntry) (k : Nat),
      chainClean H prior l → chainClean H prior (l.take k) := by
  intro l
  induction l with
  | nil => intro prior k _; simp [chainClean]
  | cons x t ih =>
    intro prior k h
    obtain ⟨h1, h2, h3⟩ := h
    cases k with
    | zero => simp [chainClean]
    | succ k => exact ⟨h1, h2, ih (some x) k h3⟩

/-- Cleanliness extends over a correctly linked, correctly hashed new tip. -/
theorem chainClean_snoc {H : String → String} {p e : LedgerEntry}
    (hhash : e.entry_hash = computeEntryHash H e)
    (hprev : e.previous_hash = p.entry_hash) :
    ∀ (l : List LedgerEntry) (prior : Option LedgerEntry),
      chainClean H prior l → l.getLast? = some p →
      chainClean H prior (l ++ [e]) := by
  intro l
  induction l with
  | nil => intro prior _ hlast; simp at hlast
  | cons x t ih =>
    intro prior h hlast
    obtain ⟨h1, h2, h3⟩ := h
    refine ⟨h1, h2, ?_⟩
    cases t with
    | nil =>
      simp only [List.getLast?_singleton, Option.some.injEq] at hlast
      subst hlast
      exact ⟨hhash, fun q hq => by cases hq; exact hprev, trivial⟩
    | cons y t₂ =>
      exact ih (some x) h3 (by simpa using hlast)

/-- The verification loop returns no failure on a clean list. -/
theorem verifyFrom_eq_none_of_clean {H : String → String} :
    ∀ (l : List LedgerEntry) (prior : Option LedgerEntry) (i : Nat),
      chainClean H prior l → verifyFrom H prior i l = none := by
  intro l
  induction l with
  | nil => intro prior i _; rfl
  | cons e t ih =>
    intro prior i h
    obtain ⟨h1, h2, h3⟩ := h
    cases prior with
    | none =>
      simp only [verifyFrom]
      rw [if_neg (by simp [h1])]
      exact ih (some e) (i + 1) h3
    | some p =>
      simp only [verifyFrom]
      rw [if_neg (by simp [h1]), if_neg (by simp [h2 p rfl])]
      exact ih (some e) (i + 1) h3

/-- Walking the loop across a clean block advances the index and the prior
entry without failing. -/
theorem verifyFrom_append_of_clean {H : String → String} :
    ∀ (pre rest : List LedgerEntry) (prior : Option LedgerEntry) (i : Nat),
      chainClean H prior pre →
      verifyFrom H prior i (pre ++ rest) =
        verifyFrom H (lastD pre prior) (i + pre.length) rest := by
  intro pre
  induction pre with
  | nil => intro rest prior i _; simp [lastD]
  | cons e t ih =>
    intro rest prior i h
    obtain ⟨h1, h2, h3⟩ := h
    have hrec := ih rest (some e) (i + 1) h3
    cases prior with
    | none =>
      simp only [List.cons_append, verifyFrom]
      rw [if_neg (by simp [h1])]
      simp only [List.append_eq]
      rw [hrec]
      simp only [lastD, List.length_cons]
      congr 1
      omega
    | some p =>
      simp only [List.cons_append, verifyFrom]
      rw [if_neg (by simp [h1]), if_neg (by simp [h2 p rfl])]
      simp only [List.append_eq]
      rw [hrec]
      simp only [lastD, List.length_cons]
      congr 1
      omega

/-- A store whose positions carry sequence numbers 0,1,... is sorted for
the ascending read. -/
theorem sorted_of_seqs {s : Store}
    (h : s.map (fun e => e.sequence_number) = (List.range s.length).map Int.ofNat) :
    List.Sorted seqLe s := by
  have h₀ : List.Pairwise (fun a b : Int => a ≤ b)
      ((List.range s.length).map Int.ofNat) :=
    (List.sorted_le_range s.length).map Int.ofNat (fun a b hab => Int.ofNat_le.mpr hab)
  rw [← h] at h₀
  have h₁ : List.Pairwise
      (fun a b : LedgerEntry => a.sequence_number ≤ b.sequence_number) s :=
    List.pairwise_map.mp h₀
  exact h₁

/-- In a well-formed store, the entry at position `i` has sequence number `i`. -/
theorem WellFormed.seq_get {H : String → String} {s : Store} (wf : WellFormed H s)
    (i : Nat) (hi : i < s.length) : s[i].sequence_number = (i : Int) := by
  have hlen : i < (s.map (fun e => e.sequence_number)).length := by simpa using hi
  have h := List.getElem_of_eq wf.seqs hlen
  rw [List.getElem_map] at h
  rw [h, List.getElem_map, List.getElem_range]
  rfl

/-- A well-formed store is sorted by sequence number. -/
theorem WellFormed.sorted {H : String → String} {s : Store} (wf : WellFormed H s) :
    List.Sorted seqLe s :=
  sorted_of_seqs wf.seqs

/-- Reading a well-formed store back in ascending sequence order returns it
unchanged. -/
theorem WellFormed.sortBySeq_eq {H : String → String} {s : Store} (wf : WellFormed H s) :
    sortBySeq s = s :=
  List.Sorted.insertionSort_eq wf.sorted

/-- The invariants hold in every reachable store state. -/
theorem reachable_wf {H : String → String} {s : Store} (hr : Reachable H s) :
    WellFormed H s := by
  induction hr with
  | init gid gmid gts =>
    have hstore : initializeLedger H gid gmid gts [] = [genesisBlock H gid gmid gts] := by
      simp [initializeLedger]
    rw [hstore]
    constructor
    · simp
    · rfl
    · intro e he
      simp only [List.head?_cons, Option.some.injEq] at he
      rw [← he]
      rfl
    · simp only [chainClean]
      refine ⟨rfl, ?_, trivial⟩
      intro p hp
      exact Option.noConfusion hp
  | step ty role mid c sup em eid ts hr heq ih =>
    rename_i s₀ s' e
    have hsort := ih.sortBySeq_eq
    -- the tip read by `ORDER BY sequence_number DESC LIMIT 1`
    rcases hlast : lastEntry s₀ with _ | last
    · rw [append, hlast] at heq; cases heq
    · rw [append, hlast] at heq
      simp only [Except.ok.injEq, Prod.mk.injEq] at heq
      obtain ⟨rfl, rfl⟩ := heq
      have hlast' : s₀.getLast? = some last := by
        rw [lastEntry, hsort] at hlast; exact hlast
      -- the length of s₀ is positive
      obtain ⟨m, hm⟩ : ∃ m, s₀.length = m + 1 := by
        cases hn : s₀.length with
        | zero => exact absurd (List.length_eq_zero.mp hn) ih.nonempty
        | succ m => exact ⟨m, rfl⟩
      -- the tip's sequence number is s₀.length - 1
      have hseq_last : last.sequence_number = Int.ofNat m := by
        have h₁ : (s₀.map (fun e => e.sequence_number)).getLast? =
            some last.sequence_number := by
          rw [List.getLast?_map, hlast']; rfl
        rw [ih.seqs, hm, List.range_succ] at h₁
        simp only [List.map_append, List.map_cons, List.map_nil,
          List.getLast?_concat, Option.some.injEq] at h₁
        exact h₁.symm
      constructor
      · simp
      · simp only [List.map_append, List.map_cons, List.map_nil, ih.seqs,
          List.length_append, List.length_singleton, hm, List.range_succ]
        simp [hseq_last, Int.ofNat_succ]
      · intro x hx
        rcases s₀ with _ | ⟨y, t⟩
        · exact absurd rfl ih.nonempty
        · simp only [List.cons_append, List.head?_cons, Option.some.injEq] at hx
          exact ih.genesis_prev x (by rw [← hx]; rfl)
      · exact chainClean_snoc rfl rfl s₀ none ih.clean hlast'

/-- An ascending read of the store is empty exactly when the store is. -/
theorem sortBySeq_eq_nil_iff (s : Store) : sortBySeq s = [] ↔ s = [] := by
  constructor
  · intro h
    have hp := List.perm_insertionSort seqLe s
    rw [sortBySeq] at h
    rw [h] at hp
    exact hp.symm.eq_nil
  · intro h; rw [h]; rfl

/- ══════════════ Claim theorems ══════════════ -/

/-- C3.  Append postcondition: whenever the store's highest-sequence entry
(the tip, as read by `ORDER BY sequence_number DESC LIMIT 1`) is `tip`, a
successful `append` returns the grown store together with an entry whose
`sequence_number` is `tip.sequence_number + 1`, whose `previous_hash` is
`tip.entry_hash`, and whose `entry_hash` equals the hash engine's digest
recomputed from the entry's own stored fields; the stored prefix is
unchanged (no existing record is mutated). -/
theorem append_postcondition (H : String → String) (ty role mid : String)
    (c : List (String × Json)) (sup : Option String) (em : Bool)
    (eid ts : String) (s : Store) (tip : LedgerEntry)
    (htip : lastEntry s = some tip) :
    ∃ e, append H ty role mid c sup em eid ts s = .ok (s ++ [e], e) ∧
      e.sequence_number = tip.sequence_number + 1 ∧
      e.previous_hash = tip.entry_hash ∧
      e.entry_hash = computeEntryHash H e ∧
      (s ++ [e]).take s.length = s := by
  refine ⟨{ id := eid
            sequence_number := tip.sequence_number + 1
            previous_hash := tip.entry_hash
            entry_hash := compute_hash H eid (tip.sequence_number + 1)
              tip.entry_hash ts ty role mid c sup em
            timestamp := ts
            entry_type := ty
            author_role := role
            author_member_id := mid
            content := c
            supersedes := sup
            emergency_designation := em }, ?_, rfl, rfl, rfl, List.take_left s _⟩
  rw [append, htip]

/-- Witness for C3: appending to a store holding exactly the genesis block. -/
theorem append_postcondition_witness :
    ∃ e, append (fun x => x) "executive_action" "operations_executive" "member-1"
        [("action", Json.str "alpha")] none false "id-1" "ts-1"
        [genesisBlock (fun x => x) "gid" "mid" "ts0"] =
      .ok ([genesisBlock (fun x => x) "gid" "mid" "ts0"] ++ [e], e) ∧
      e.sequence_number = (genesisBlock (fun x => x) "gid" "mid" "ts0").sequence_number + 1 ∧
      e.previous_hash = (genesisBlock (fun x => x) "gid" "mid" "ts0").entry_hash ∧
      e.entry_hash = computeEntryHash (fun x => x) e ∧
      ([genesisBlock (fun x => x) "gid" "mid" "ts0"] ++ [e]).take
        [genesisBlock (fun x => x) "gid" "mid" "ts0"].length =
        [genesisBlock (fun x => x) "gid" "mid" "ts0"] :=
  append_postcondition (fun x => x) "executive_action" "operations_executive"
    "member-1" [("action", Json.str "alpha")] none false "id-1" "ts-1"
    [genesisBlock (fun x => x) "gid" "mid" "ts0"]
    (genesisBlock (fun x => x) "gid" "mid" "ts0") rfl

/-- C6.  Fail-fast preconditions of `verify_chain`: an empty ledger, a
first entry (in ascending sequence order) whose sequence number is not 0,
or a genesis entry whose `previous_hash` is not the all-zero sentinel each
yield `valid = false` with `verifiedCount = 0` and the corresponding
message (`service.py` lines 253-262). -/
theorem verify_chain_fail_fast (H : String → String) (s : Store) :
    (s = [] → verify_chain H s = (false, 0, emptyLedgerMsg)) ∧
    (∀ first rest, sortBySeq s = first :: rest → first.sequence_number ≠ 0 →
      verify_chain H s = (false, 0, firstSeqMsg first.sequence_number)) ∧
    (∀ first rest, sortBySeq s = first :: rest → first.sequence_number = 0 →
      first.previous_hash ≠ GENESIS_HASH →
      verify_chain H s = (false, 0, genesisPrevMsg)) := by
  refine ⟨?_, ?_, ?_⟩
  · intro h; subst h; rfl
  · intro first rest hsort hne
    simp only [verify_chain, hsort]
    rw [if_pos hne]
  · intro first rest hsort h0 hprev
    simp only [verify_chain, hsort]
    rw [if_neg (by simp [h0]), if_pos hprev]

/-- Witness for C6: all three fail-fast cases at concrete stores. -/
theorem verify_chain_fail_fast_witness :
    verify_chain (fun x => x) [] = (false, 0, emptyLedgerMsg) ∧
    verify_chain (fun x => x) [dummyEntry 1 ""] = (false, 0, firstSeqMsg 1) ∧
    verify_chain (fun x => x) [dummyEntry 0 ""] = (false, 0, genesisPrevMsg) :=
  ⟨(verify_chain_fail_fast (fun x => x) []).1 rfl,
   (verify_chain_fail_fast (fun x => x) [dummyEntry 1 ""]).2.1
     (dummyEntry 1 "") [] rfl (by decide),
   (verify_chain_fail_fast (fun x => x) [dummyEntry 0 ""]).2.2
     (dummyEntry 0 "") [] rfl rfl (by decide)⟩

/-- C7.  `append` fails with the no-genesis-block `LedgerIntegrityError` if
and only if the store holds no entries; the error carries the source's
message and is raised before any row is built or inserted (`service.py`
lines 189-192), so the store is unchanged on error. -/
theorem append_noGenesis_iff_empty (H : String → String) (ty role mid : String)
    (c : List (String × Json)) (sup : Option String) (em : Bool)
    (eid ts : String) (s : Store) :
    ((∃ msg, append H ty role mid c sup em eid ts s = .error msg) ↔ s = []) ∧
    (s = [] → append H ty role mid c sup em eid ts s = .error noGenesisMsg) := by
  constructor
  · constructor
    · rintro ⟨msg, hmsg⟩
      by_contra hne
      rcases hl : lastEntry s with _ | last
      · rw [lastEntry, List.getLast?_eq_none_iff] at hl
        exact hne ((sortBySeq_eq_nil_iff s).mp hl)
      · rw [append, hl] at hmsg
        exact Except.noConfusion hmsg
    · intro h; subst h; exact ⟨noGenesisMsg, rfl⟩
  · intro h; subst h; rfl

/-- Witness for C7: appending to the empty store raises the error. -/
theorem append_noGenesis_iff_empty_witness :
    append (fun x => x) "executive_action" "operations_executive" "member-1"
      [] none false "id-1" "ts-1" [] = .error noGenesisMsg :=
  (append_noGenesis_iff_empty (fun x => x) "executive_action"
    "operations_executive" "member-1" [] none false "id-1" "ts-1" []).2 rfl

/-- C8.  `initialize` idempotence: the genesis entry (sequence 0, the fixed
deterministic content payload, sentinel `previous_hash`) is created exactly
when no entry with sequence number 0 exists; a second run (with any fresh
identifiers) leaves the store unchanged, and from an empty store exactly
one genesis entry ever exists. -/
theorem initializeLedger_idempotent (H : String → String)
    (gid gmid gts gid₂ gmid₂ gts₂ : String) (s : Store) :
    (¬ (∃ e ∈ s, e.sequence_number = 0) →
      initializeLedger H gid gmid gts s = s ++ [genesisBlock H gid gmid gts] ∧
      (genesisBlock H gid gmid gts).sequence_number = 0 ∧
      (genesisBlock H gid gmid gts).content = genesisContent ∧
      (genesisBlock H gid gmid gts).previous_hash = GENESIS_HASH) ∧
    ((∃ e ∈ s, e.sequence_number = 0) → initializeLedger H gid gmid gts s = s) ∧
    (initializeLedger H gid₂ gmid₂ gts₂ (initializeLedger H gid gmid gts s) =
      initializeLedger H gid gmid gts s) ∧
    List.countP (fun e => e.sequence_number == 0)
      (initializeLedger H gid gmid gts []) = 1 := by
  have hany : ∀ (t : Store),
      t.any (fun e => e.sequence_number == 0) = true ↔
        ∃ e ∈ t, e.sequence_number = 0 := by
    intro t
    simp [List.any_eq_true]
  refine ⟨?_, ?_, ?_, ?_⟩
  · intro h
    rw [initializeLedger, if_neg (fun ha => h ((hany s).mp ha))]
    exact ⟨rfl, rfl, rfl, rfl⟩
  · intro h
    rw [initializeLedger, if_pos ((hany s).mpr h)]
  · by_cases hp : ∃ e ∈ s, e.sequence_number = 0
    · have h1 : initializeLedger H gid gmid gts s = s := by
        rw [initializeLedger, if_pos ((hany s).mpr hp)]
      rw [h1, initializeLedger, if_pos ((hany s).mpr hp)]
    · have h1 : initializeLedger H gid gmid gts s =
          s ++ [genesisBlock H gid gmid gts] := by
        rw [initializeLedger, if_neg (fun ha => hp ((hany s).mp ha))]
      rw [h1, initializeLedger, if_pos ((hany _).mpr
        ⟨genesisBlock H gid gmid gts, by simp, rfl⟩)]
  · rfl

/-- Witness for C8: initialization from the empty store. -/
theorem initializeLedger_idempotent_witness :
    (initializeLedger (fun x => x) "gid" "mid" "ts0" [] =
      [] ++ [genesisBlock (fun x => x) "gid" "mid" "ts0"] ∧
     (genesisBlock (fun x => x) "gid" "mid" "ts0").sequence_number = 0 ∧
     (genesisBlock (fun x => x) "gid" "mid" "ts0").content = genesisContent ∧
     (genesisBlock (fun x => x) "gid" "mid" "ts0").previous_hash = GENESIS_HASH) ∧
    (initializeLedger (fun x => x) "g2" "m2" "t2"
        (initializeLedger (fun x => x) "gid" "mid" "ts0" []) =
      initializeLedger (fun x => x) "gid" "mid" "ts0" []) :=
  ⟨(initializeLedger_idempotent (fun x => x) "gid" "mid" "ts0" "g2" "m2" "t2" []).1
      (by simp),
   (initializeLedger_idempotent (fun x => x) "gid" "mid" "ts0" "g2" "m2" "t2" []).2.2.1⟩

/-- The linkage conditions of a clean chain, phrased by position. -/
theorem chainClean_link {H : String → String} :
    ∀ (l : List LedgerEntry) (prior : Option LedgerEntry), chainClean H prior l →
      ∀ i (hi : i < l.length) (hi1 : i + 1 < l.length),
        l[i + 1].previous_hash = l[i].entry_hash := by
  intro l
  induction l with
  | nil => intro prior _ i hi _; simp at hi
  | cons x t ih =>
    intro prior h i hi hi1
    obtain ⟨h1, h2, h3⟩ := h
    cases i with
    | zero =>
      cases t with
      | nil => simp at hi1
      | cons y t₂ =>
        obtain ⟨g1, g2, g3⟩ := h3
        simpa using g2 x rfl
    | succ i =>
      have ht := ih (some x) h3 i (by simpa using Nat.lt_of_succ_lt_succ hi)
        (by simpa using Nat.lt_of_succ_lt_succ hi1)
      simpa using ht

/-- C2.  Verification soundness: `verify_chain` on an untouched chain of N
appended entries (a store reachable by `initialize` followed by successful
`append` calls, so N ≥ 1) returns `valid = true`, `verifiedCount = N` and
the descriptive success message. -/
theorem verify_chain_sound (H : String → String) (s : Store)
    (hr : Reachable H s) :
    verify_chain H s = (true, s.length, successMsg s.length) := by
  have wf := reachable_wf hr
  have hsort := wf.sortBySeq_eq
  obtain ⟨first, rest, rfl⟩ := List.exists_cons_of_ne_nil wf.nonempty
  have h0 : first.sequence_number = 0 := by
    have h := wf.seq_get 0 (by simp)
    simpa using h
  have hprev : first.previous_hash = GENESIS_HASH := wf.genesis_prev first rfl
  simp only [verify_chain, hsort]
  rw [if_neg (by simp [h0]), if_neg (by simp [hprev]),
    verifyFrom_eq_none_of_clean (first :: rest) none 0 wf.clean]

/-- Witness for C2: the freshly initialized single-entry chain verifies. -/
theorem verify_chain_sound_witness :
    verify_chain (fun x => x) (initializeLedger (fun x => x) "gid" "mid" "ts0" []) =
      (true, (initializeLedger (fun x => x) "gid" "mid" "ts0" []).length,
        successMsg (initializeLedger (fun x => x) "gid" "mid" "ts0" []).length) :=
  verify_chain_sound (fun x => x) _ (Reachable.init "gid" "mid" "ts0")

/-- C5.  Chain-linkage invariant: in every store state reachable by
`initialize` followed by any sequence of successful `append` calls, the
entries carry unique, contiguous sequence numbers starting at 0 (position
`i` holds sequence number `i`), and every entry after the genesis stores
the previous entry's `entry_hash` as its `previous_hash`. -/
theorem chain_linkage_invariant (H : String → String) (s : Store)
    (hr : Reachable H s) :
    (∀ i (hi : i < s.length), s[i].sequence_number = (i : Int)) ∧
    (∀ i j (hi : i < s.length) (hj : j < s.length), i ≠ j →
      s[i].sequence_number ≠ s[j].sequence_number) ∧
    (∀ i (hi : i < s.length) (hi1 : i + 1 < s.length),
      s[i + 1].previous_hash = s[i].entry_hash) := by
  have wf := reachable_wf hr
  refine ⟨wf.seq_get, ?_, ?_⟩
  · intro i j hi hj hij
    rw [wf.seq_get i hi, wf.seq_get j hj]
    exact fun hc => hij (by exact_mod_cast hc)
  · intro i hi hi1
    exact chainClean_link s none wf.clean i hi hi1

/-- Witness for C5: the invariant at the concrete two-entry chain. -/
theorem chain_linkage_invariant_witness :
    (∀ i (hi : i < c5Chain.length), c5Chain[i].sequence_number = (i : Int)) ∧
    (∀ i j (hi : i < c5Chain.length) (hj : j < c5Chain.length), i ≠ j →
      c5Chain[i].sequence_number ≠ c5Chain[j].sequence_number) ∧
    (∀ i (hi : i < c5Chain.length) (hi1 : i + 1 < c5Chain.length),
      c5Chain[i + 1].previous_hash = c5Chain[i].entry_hash) :=
  chain_linkage_invariant (fun x => x) c5Chain
    (Reachable.step "executive_action" "operations_executive" "member-1"
      [("action", Json.str "alpha")] none false "id-1" "ts-1"
      (Reachable.init "gid" "mid" "ts0") rfl)

/-- `JsonEquiv` holds reflexively on string leaves. -/
theorem jsonEquiv_refl_str (s : String) : JsonEquiv (.str s) (.str s) := by
  simp [JsonEquiv]

/-- `JsonEquiv` holds reflexively on number leaves. -/
theorem jsonEquiv_refl_num (n : Int) : JsonEquiv (.num n) (.num n) := by
  simp [JsonEquiv]

/-- `JsonEquiv` holds reflexively on boolean leaves. -/
theorem jsonEquiv_refl_bool (b : Bool) : JsonEquiv (.bool b) (.bool b) := by
  simp [JsonEquiv]

/-- `JsonEquiv` holds reflexively on the serialized `supersedes` field. -/
theorem jsonEquiv_refl_supersedes (sup : Option String) :
    JsonEquiv (match sup with | some u => Json.str u | none => Json.null)
      (match sup with | some u => Json.str u | none => Json.null) := by
  cases sup with
  | some u => simp [JsonEquiv]
  | none => simp [JsonEquiv]

/-- The empty pair lists are pointwise related. -/
theorem jsonPairsEquiv_nil : JsonPairsEquiv [] [] := by
  simp [JsonPairsEquiv]

/-- Pointwise relation extends across a shared key with related values. -/
theorem jsonPairsEquiv_cons (k : String) {v w : Json}
    {ps qs : List (String × Json)} (hvw : JsonEquiv v w)
    (hpq : JsonPairsEquiv ps qs) :
    JsonPairsEquiv ((k, v) :: ps) ((k, w) :: qs) := by
  simp only [JsonPairsEquiv]
  exact ⟨w, qs, rfl, hvw, hpq⟩

/-- C4.  Hash determinism and key-order independence: for any fixed entry
field tuple, computing the hash twice yields identical digests, and two
content mappings carrying the same logical key-value pairs — differing
only in map key insertion order, at any nesting depth (`JsonEquiv`) —
produce the same `entry_hash`, for every digest function. -/
theorem compute_hash_deterministic_key_order (H : String → String)
    (eid : String) (seq : Int) (prev ts ty role mid : String)
    (c₁ c₂ : List (String × Json)) (sup : Option String) (em : Bool)
    (h : JsonEquiv (Json.obj c₁) (Json.obj c₂)) :
    compute_hash H eid seq prev ts ty role mid c₁ sup em =
      compute_hash H eid seq prev ts ty role mid c₁ sup em ∧
    compute_hash H eid seq prev ts ty role mid c₁ sup em =
      compute_hash H eid seq prev ts ty role mid c₂ sup em := by
  refine ⟨rfl, ?_⟩
  have hobj : JsonEquiv (hashable eid seq prev ts ty role mid c₁ sup em)
      (hashable eid seq prev ts ty role mid c₂ sup em) := by
    simp only [hashable, JsonEquiv]
    refine ⟨_, rfl, ?_, _, ?_, List.Perm.refl _⟩
    · show (["id", "sequence_number", "previous_hash", "timestamp",
        "entry_type", "author_role", "author_member_id", "content",
        "supersedes", "emergency_designation"] : List String).Nodup
      decide
    · exact jsonPairsEquiv_cons "id" (jsonEquiv_refl_str eid)
        (jsonPairsEquiv_cons "sequence_number" (jsonEquiv_refl_num seq)
        (jsonPairsEquiv_cons "previous_hash" (jsonEquiv_refl_str prev)
        (jsonPairsEquiv_cons "timestamp" (jsonEquiv_refl_str ts)
        (jsonPairsEquiv_cons "entry_type" (jsonEquiv_refl_str ty)
        (jsonPairsEquiv_cons "author_role" (jsonEquiv_refl_str role)
        (jsonPairsEquiv_cons "author_member_id" (jsonEquiv_refl_str mid)
        (jsonPairsEquiv_cons "content" h
        (jsonPairsEquiv_cons "supersedes" (jsonEquiv_refl_supersedes sup)
        (jsonPairsEquiv_cons "emergency_designation" (jsonEquiv_refl_bool em)
          jsonPairsEquiv_nil)))))))))
  unfold compute_hash
  rw [dumps_eq_of_equiv hobj]

/-- Witness for C4: the same two pairs in the two possible orders. -/
theorem compute_hash_deterministic_key_order_witness :
    compute_hash (fun x => x) "id-1" 1 "prev" "ts" "executive_action"
        "operations_executive" "member-1"
        [("b", Json.num 2), ("a", Json.num 1)] none false =
      compute_hash (fun x => x) "id-1" 1 "prev" "ts" "executive_action"
        "operations_executive" "member-1"
        [("b", Json.num 2), ("a", Json.num 1)] none false ∧
    compute_hash (fun x => x) "id-1" 1 "prev" "ts" "executive_action"
        "operations_executive" "member-1"
        [("b", Json.num 2), ("a", Json.num 1)] none false =
      compute_hash (fun x => x) "id-1" 1 "prev" "ts" "executive_action"
        "operations_executive" "member-1"
        [("a", Json.num 1), ("b", Json.num 2)] none false :=
  compute_hash_deterministic_key_order (fun x => x) "id-1" 1 "prev" "ts"
    "executive_action" "operations_executive" "member-1"
    [("b", Json.num 2), ("a", Json.num 1)] [("a", Json.num 1), ("b", Json.num 2)]
    none false
    (by
      simp only [JsonEquiv]
      refine ⟨[("a", Json.num 1), ("b", Json.num 2)], rfl, by decide,
        [("b", Json.num 2), ("a", Json.num 1)], ?_, ?_⟩
      · exact jsonPairsEquiv_cons "b" (jsonEquiv_refl_num 2)
          (jsonPairsEquiv_cons "a" (jsonEquiv_refl_num 1) jsonPairsEquiv_nil)
      · exact List.Perm.swap _ _ _)

/-- C10.  On an empty ledger the audit CLI's `run_audit` returns `true`
(exit code 0, "nothing to verify") without invoking `verify_chain`
(`audit.py` lines 57-59), even though `verify_chain` on the same empty
ledger returns `valid = false` with the no-entries message
(`service.py` lines 253-254): the audit tool and the verification
operation disagree on this edge case. -/
theorem run_audit_empty_disagrees (H : String → String) :
    run_audit H [] = true ∧ verify_chain H [] = (false, 0, emptyLedgerMsg) :=
  ⟨rfl, rfl⟩

/-- A list is a `isPrefixOf`-prefix of itself followed by anything. -/
theorem isPrefixOf_append_self (l t : List Char) : l.isPrefixOf (l ++ t) = true := by
  rw [List.isPrefixOf_iff_prefix]
  exact ⟨t, rfl⟩

/-- The scan finds the needle at the very front. -/
theorem hasSubList_self_append (b c : List Char) : hasSubList (b ++ c) b = true := by
  cases b with
  | nil =>
    cases c with
    | nil => rfl
    | cons x t => simp [hasSubList]
  | cons x t =>
    simp only [List.cons_append, hasSubList, List.append_eq]
    rw [← List.cons_append, isPrefixOf_append_self]
    simp

/-- The scan finds a needle sitting between two blocks. -/
theorem hasSubList_of_mid (a b c : List Char) : hasSubList (a ++ (b ++ c)) b = true := by
  induction a with
  | nil => simpa using hasSubList_self_append b c
  | cons x t ih =>
    simp only [List.cons_append, hasSubList, List.append_eq]
    rw [ih]
    simp

/-- Every hash-mismatch message names the failing entry's sequence number. -/
theorem hashMismatchMsg_names_seq (e : LedgerEntry) (x : String) :
    strHasSub (hashMismatchMsg e x) (toString e.sequence_number) = true := by
  rw [hashMismatchMsg, strHasSub]
  simp only [String.data_append, List.append_assoc]
  exact hasSubList_of_mid _ _ _

/-- Overwriting a position with the element it already holds is a no-op. -/
theorem set_self_of_getElem {α : Type _} :
    ∀ (l : List α) (i : Nat) (hi : i < l.length), l.set i l[i] = l := by
  intro l
  induction l with
  | nil => intro i hi; simp at hi
  | cons x t ih =>
    intro i hi
    cases i with
    | zero => simp
    | succ i => simp [ih i (by simpa using Nat.lt_of_succ_lt_succ hi)]

/-- Recomputing an entry's hash digests the entry's hash-input string. -/
theorem computeEntryHash_eq (H : String → String) (e : LedgerEntry) :
    computeEntryHash H e = H (hashInput e) := rfl

/-- C1 (amended).  Tamper detection: take any reachable chain and mutate,
at position `i`, any stored field other than `sequence_number` (captured
by: the tampered entry keeps its sequence number, and either only the
stored `entry_hash` changed, or the hash-engine input changed while the
stored `entry_hash` did not — a single-field edit always falls in one of
the two cases), with the digest collision-free.  Then `verify_chain`
returns `valid = false` with `verifiedCount = i`, and the message is the
hash-mismatch message naming the entry's sequence number — except when the
mutated field is the genesis entry's `previous_hash`, where the fixed
genesis-check message (naming no sequence number) is returned. -/
theorem tamper_detection (H : String → String) (Hinj : Function.Injective H)
    (s : Store) (hr : Reachable H s) (i : Nat) (hi : i < s.length)
    (e' : LedgerEntry)
    (hseq : e'.sequence_number = s[i].sequence_number)
    (hdet : (hashInput e' = hashInput s[i] ∧ e'.entry_hash ≠ s[i].entry_hash) ∨
            (hashInput e' ≠ hashInput s[i] ∧ e'.entry_hash = s[i].entry_hash)) :
    verify_chain H (s.set i e') =
      (false, i,
        if i = 0 ∧ e'.previous_hash ≠ GENESIS_HASH then genesisPrevMsg
        else hashMismatchMsg e' (computeEntryHash H e')) ∧
    ((i = 0 ∧ e'.previous_hash ≠ GENESIS_HASH) ∨
      strHasSub (hashMismatchMsg e' (computeEntryHash H e'))
        (toString e'.sequence_number) = true) := by
  have wf := reachable_wf hr
  have horig : s[i].entry_hash = computeEntryHash H s[i] :=
    chainClean_mem_hash s none wf.clean _ (List.getElem_mem hi)
  have hfail : e'.entry_hash ≠ computeEntryHash H e' := by
    rcases hdet with ⟨hin, hne⟩ | ⟨hin, heq⟩
    · have h₂ : computeEntryHash H e' = s[i].entry_hash := by
        rw [computeEntryHash_eq H e', hin, ← computeEntryHash_eq H, ← horig]
      rw [h₂]
      exact hne
    · rw [heq, horig]
      intro hc
      have hc' : H (hashInput s[i]) = H (hashInput e') := by
        rw [← computeEntryHash_eq H, ← computeEntryHash_eq H, hc]
      exact hin (Hinj hc').symm
  have hseqs_set : (s.set i e').map (fun e => e.sequence_number) =
      (List.range (s.set i e').length).map Int.ofNat := by
    rw [List.map_set]
    have hlen : i < (s.map (fun e => e.sequence_number)).length := by simpa using hi
    have h1 : e'.sequence_number = (s.map (fun e => e.sequence_number))[i] := by
      rw [List.getElem_map]
      exact hseq
    rw [h1, set_self_of_getElem _ i hlen, List.length_set, wf.seqs]
  have hsort : sortBySeq (s.set i e') = s.set i e' :=
    List.Sorted.insertionSort_eq (sorted_of_seqs hseqs_set)
  have hloop : verifyFrom H none 0 (s.set i e') =
      some (i, hashMismatchMsg e' (computeEntryHash H e')) := by
    have hset : s.set i e' = s.take i ++ e' :: s.drop (i + 1) := by
      rw [List.set_eq_take_append_cons_drop, if_pos hi]
    rw [hset, verifyFrom_append_of_clean (s.take i) _ none 0
      (chainClean_take s none i wf.clean)]
    simp only [verifyFrom]
    rw [if_pos hfail]
    have hidx : 0 + (s.take i).length = i := by
      simp only [List.length_take, Nat.zero_add]
      omega
    rw [hidx]
  obtain ⟨x, t, rfl⟩ := List.exists_cons_of_ne_nil wf.nonempty
  have hx0 : x.sequence_number = 0 := by
    have h := wf.seq_get 0 (by simp)
    simpa using h
  have hxprev : x.previous_hash = GENESIS_HASH := wf.genesis_prev x rfl
  rcases Nat.eq_zero_or_pos i with rfl | hpos
  · have hcons : (x :: t).set 0 e' = e' :: t := by simp
    rw [hcons] at hsort hloop ⊢
    have he'seq : e'.sequence_number = 0 := by
      rw [hseq]
      simpa using hx0
    by_cases hgen : e'.previous_hash ≠ GENESIS_HASH
    · refine ⟨?_, Or.inl ⟨rfl, hgen⟩⟩
      simp only [verify_chain, hsort]
      rw [if_neg (by simp [he'seq]), if_pos hgen]
      rw [if_pos (show True ∧ e'.previous_hash ≠ GENESIS_HASH from ⟨trivial, hgen⟩)]
    · refine ⟨?_, Or.inr (hashMismatchMsg_names_seq e' _)⟩
      simp only [verify_chain, hsort]
      rw [if_neg (by simp [he'seq]), if_neg hgen, hloop,
        if_neg (fun hc => hgen hc.2)]
  · obtain ⟨j, rfl⟩ : ∃ j, i = j + 1 := ⟨i - 1, by omega⟩
    have hcons : (x :: t).set (j + 1) e' = x :: t.set j e' := by simp
    rw [hcons] at hsort hloop ⊢
    refine ⟨?_, Or.inr (hashMismatchMsg_names_seq e' _)⟩
    simp only [verify_chain, hsort]
    rw [if_neg (by simp [hx0]), if_neg (by simp [hxprev]), hloop,
      if_neg (by simp)]

/-- Witness for C1 (amended): overwriting the stored `entry_hash` of the
genesis entry of a freshly initialized chain is detected at index 0. -/
theorem tamper_detection_witness :
    verify_chain (fun x => x)
        ((initializeLedger (fun x => x) "gid" "mid" "ts0" []).set 0 c1Tampered) =
      (false, 0,
        if 0 = 0 ∧ c1Tampered.previous_hash ≠ GENESIS_HASH then genesisPrevMsg
        else hashMismatchMsg c1Tampered (computeEntryHash (fun x => x) c1Tampered)) ∧
    ((0 = 0 ∧ c1Tampered.previous_hash ≠ GENESIS_HASH) ∨
      strHasSub (hashMismatchMsg c1Tampered (computeEntryHash (fun x => x) c1Tampered))
        (toString c1Tampered.sequence_number) = true) :=
  tamper_detection (fun x => x) (fun _ _ h => h) _ (Reachable.init "gid" "mid" "ts0")
    0 (by decide) c1Tampered rfl (Or.inl ⟨rfl, by decide⟩)

/-- Counterexample to C1 as stated.  (a) Mutating the genesis entry's
stored `previous_hash`: `verify_chain` does return `(false, 0, _)`, but the
message is the fixed genesis-check message, which does not name the
entry's sequence number (it does not even contain the digit 0).
(b) Mutating the stored `sequence_number` of the entry at index 1 of a
two-entry chain (to -1): the tampered entry is read back first, the
first-entry check fires, and `verifiedCount` is 0, not the tampered
entry's index 1. -/
theorem tamper_detection_counterexample :
    (Reachable (fun x => x) (initializeLedger (fun x => x) "gid" "mid" "ts0" []) ∧
     verify_chain (fun x => x)
        ((initializeLedger (fun x => x) "gid" "mid" "ts0" []).set 0 c1PrevTampered) =
       (false, 0, genesisPrevMsg) ∧
     strHasSub genesisPrevMsg (toString c1PrevTampered.sequence_number) = false) ∧
    (Reachable (fun x => x) c1Chain2 ∧
     verify_chain (fun x => x) (c1Chain2.set 1 c1SeqTampered) =
       (false, 0, firstSeqMsg (-1)) ∧
     (verify_chain (fun x => x) (c1Chain2.set 1 c1SeqTampered)).2.1 ≠ 1) := by
  refine ⟨⟨Reachable.init "gid" "mid" "ts0", ?_, ?_⟩,
    ⟨Reachable.step "executive_action" "operations_executive" "member-1"
      [("action", Json.str "alpha")] none false "id-1" "ts-1"
      (Reachable.init "gid" "mid" "ts0") rfl, ?_, ?_⟩⟩
  · decide
  · decide
  · decide
  · decide

end NovaLedger
